import Mathlib

/-!
Verification of the unitmgr reconciliation daemon (main.go).

The Go program watches a source directory of systemd unit files, mirrors
them into a destination directory, and drives systemctl so the live units
match the files.  We give a shallow embedding of the reconciliation pass
(`sync`, main.go lines 84-183), the systemctl wrappers (lines 226-257) and
one step of the event loop (`runLoop`, lines 59-82, with the closure built
in `main`, lines 48-53), and prove the specified properties about them.

Modelling conventions:
- File contents are byte lists (`List Nat`, each byte < 256 in the real
  program).  SHA-256 itself is an external library; the development is
  parameterised by a digest function `sha` and, where needed, by the
  hypothesis `ShaGood sha` that digests are 32 bytes (sha256.Size).
  `hexEncode` models encoding/hex.EncodeToString.
- The filesystem and systemctl are modelled by an environment `Env`:
  source-file contents plus boolean failure oracles for each fallible
  operation (read, copy, remove, stat, and the systemctl execs).  The
  source directory is never written by the program, so it is static; the
  destination directory and the set of active units are threaded through
  the pass in `SyncState`.
- The reconciliation state map (Go `map[string]string`) is an association
  list with the Go map operations `state[u]` (zero value "" when absent),
  `state[u] = v` and `delete(state, u)`.  Go's map iteration order is not
  specified; the cleanup loop iterates over the key list of the map as it
  stood when the loop started, which is one admissible order (the loop
  only deletes the key currently being visited, so no key is revisited).
- An `Action` records each unit-changing systemctl exec that is attempted:
  `start u` for the `restart` exec issued by EnsureRunning (line 245),
  `reload`/`restart u` for the two execs of Restart (lines 230, 234), and
  `stop u` for the exec of EnsureStopped (line 256).  A successful exec of
  `restart` leaves the unit active; `stop` leaves it inactive; a failed
  exec is modelled as leaving the live state unchanged.
-/

namespace Unitmgr

abbrev Content := List Nat

abbrev Fp := String

/-- One hex digit, as in encoding/hex: 0-9 then a-f. -/
def hexDigit (n : Nat) : Char :=
  if n < 10 then Char.ofNat (48 + n) else Char.ofNat (97 + (n - 10))

/-- Hex chars of a byte list: two digits per byte, high nibble first
(Go bytes are < 256, hence the `% 256`). -/
def hexChars : List Nat → List Char
  | [] => []
  | b :: t => hexDigit (b % 256 / 16) :: hexDigit (b % 16) :: hexChars t

/-- encoding/hex.EncodeToString. -/
def hexEncode (bs : List Nat) : String := ⟨hexChars bs⟩

/-- getChecksum's digest rendering (main.go line 196): hex of the digest. -/
def chk (sha : Content → List Nat) (c : Content) : Fp := hexEncode (sha c)

/-- The digest function is SHA-256: 32-byte output, bytes < 256. -/
def ShaGood (sha : Content → List Nat) : Prop :=
  ∀ c, (sha c).length = 32 ∧ ∀ b ∈ sha c, b < 256

/-- Hexadecimal character test (0-9, a-f). -/
def isHexChar (ch : Char) : Bool := ('0' ≤ ch && ch ≤ '9') || ('a' ≤ ch && ch ≤ 'f')

/-- A unit-changing systemctl exec attempt. -/
inductive Action where
  | start (u : String)
  | reload
  | restart (u : String)
  | stop (u : String)
deriving DecidableEq

/-- Static environment of one pass: listing result, source contents, and
failure oracles for every fallible external operation. -/
structure Env where
  srcList : Option (List String)
  src : String → Option Content
  srcErr : String → Bool
  destErr : String → Bool
  copyErr : String → Bool
  removeErr : String → Bool
  statErr : String → Bool
  startErr : String → Bool
  stopErr : String → Bool
  restartErr : String → Bool
  reloadErr : Bool

/-- Mutable state threaded through a pass: the success flag `ok`, the
reconciliation state map, the destination directory, the live units, and
the trace of attempted actions. -/
structure SyncState where
  ok : Bool
  state : List (String × Fp)
  dest : String → Option Content
  active : String → Bool
  acts : List Action

/-- Skip vim artifacts (main.go line 93): strings.HasSuffix on ".swp" and
on "~", expressed as a suffix test on the character list. -/
def skipName (n : String) : Bool :=
  ".swp".data.isSuffixOf n.data || "~".data.isSuffixOf n.data

/-- The Desired Set: non-skipped names of the directory listing. -/
def desiredSet (files : List String) : List String :=
  files.filter (fun n => !skipName n)

/-- Association-list lookup (Go map read without the zero-value default). -/
def lookupFp : List (String × Fp) → String → Option Fp
  | [], _ => none
  | p :: t, u => if p.1 = u then some p.2 else lookupFp t u

/-- Go map read `state[u]`: zero value "" when the key is absent. -/
def stateGet (st : List (String × Fp)) (u : String) : Fp :=
  (lookupFp st u).getD ""

/-- Go map write `state[u] = v`. -/
def setFp : List (String × Fp) → String → Fp → List (String × Fp)
  | [], u, v => [(u, v)]
  | p :: t, u, v => if p.1 = u then (u, v) :: t else p :: setFp t u v

/-- Go map `delete(state, u)`. -/
def delFp : List (String × Fp) → String → List (String × Fp)
  | [], _ => []
  | p :: t, u => if p.1 = u then delFp t u else p :: delFp t u

/-- Pointwise update of the destination directory. -/
def updO (f : String → Option Content) (u : String) (v : Option Content) :
    String → Option Content :=
  fun x => if x = u then v else f x

/-- Pointwise update of the live-unit map. -/
def updB (f : String → Bool) (u : String) (b : Bool) : String → Bool :=
  fun x => if x = u then b else f x

/-- Result of one systemctl wrapper call. -/
structure CallOut where
  changed : Bool
  err : Bool
  active : String → Bool
  acts : List Action

/-- systemctl.EnsureRunning (main.go lines 237-246): no-op when the unit is
already active, otherwise exec `systemctl restart`. -/
def ensureRunning (e : Env) (active : String → Bool) (u : String) : CallOut :=
  if active u then ⟨false, false, active, []⟩
  else if e.startErr u then ⟨true, true, active, [Action.start u]⟩
  else ⟨true, false, updB active u true, [Action.start u]⟩

/-- systemctl.Restart (main.go lines 226-235): daemon-reload, then exec
`systemctl restart`. -/
def restartCmd (e : Env) (active : String → Bool) (u : String) : CallOut :=
  if e.reloadErr then ⟨true, true, active, [Action.reload]⟩
  else if e.restartErr u then ⟨true, true, active, [Action.reload, Action.restart u]⟩
  else ⟨true, false, updB active u true, [Action.reload, Action.restart u]⟩

/-- systemctl.EnsureStopped (main.go lines 248-257): no-op when the unit is
already inactive, otherwise exec `systemctl stop`. -/
def ensureStopped (e : Env) (active : String → Bool) (u : String) : CallOut :=
  if active u then
    if e.stopErr u then ⟨true, true, active, [Action.stop u]⟩
    else ⟨true, false, updB active u false, [Action.stop u]⟩
  else ⟨false, false, active, []⟩

/-- getChecksum on the source file (main.go lines 100-108).  `none` is any
read error.  Note the Go code treats a not-exist error like every other
error here: the `os.IsNotExist` test on line 106 sits after the
`err != nil` continue on lines 101-105 and is unreachable. -/
def readSrcChecksum (sha : Content → List Nat) (e : Env) (u : String) : Option Fp :=
  match e.src u with
  | none => none
  | some c => if e.srcErr u then none else some (chk sha c)

/-- getChecksum on the destination file (main.go lines 110-116): a
not-exist condition is not an error and yields the zero value "";
`none` is any other read error. -/
def readDestChecksum (sha : Content → List Nat) (e : Env)
    (dest : String → Option Content) (u : String) : Option Fp :=
  match dest u with
  | none => some ""
  | some d => if e.destErr u then none else some (chk sha d)

/-- main.go lines 128-153: start-or-record branch (line 129) and restart
branch (line 144), entered after the copy step with `currentChecksum`
still holding the fingerprint read before the copy. -/
def runBranch (e : Env) (unit : String) (checksum currentChecksum : Fp)
    (s : SyncState) : SyncState :=
  if checksum = currentChecksum ∨ currentChecksum = "" then
    let r := ensureRunning e s.active unit
    if r.err then { s with ok := false, acts := s.acts ++ r.acts }
    else { s with active := r.active, acts := s.acts ++ r.acts,
                  state := setFp s.state unit checksum }
  else if checksum ≠ stateGet s.state unit then
    let r := restartCmd e s.active unit
    if r.err then { s with ok := false, acts := s.acts ++ r.acts }
    else { s with active := r.active, acts := s.acts ++ r.acts,
                  state := setFp s.state unit checksum }
  else s

/-- main.go lines 118-126: copy the source bytes over the destination when
the fingerprints differ, then fall through to the branches. -/
def copyPhase (e : Env) (unit : String) (content : Content)
    (checksum currentChecksum : Fp) (s : SyncState) : SyncState :=
  if checksum = currentChecksum then runBranch e unit checksum currentChecksum s
  else if e.copyErr unit then { s with ok := false }
  else runBranch e unit checksum currentChecksum
    { s with dest := updO s.dest unit (some content) }

/-- Body of the per-entry loop of sync (main.go lines 92-154).  The entry
name is the unit name: names produced by the directory listing contain no
path separator, so `path.Base` is the identity on them. -/
def processUnit (sha : Content → List Nat) (e : Env) (s : SyncState)
    (name : String) : SyncState :=
  if skipName name then s
  else
    match e.src name with
    | none => { s with ok := false }
    | some content =>
      if e.srcErr name then { s with ok := false }
      else
        match readDestChecksum sha e s.dest name with
        | none => { s with ok := false }
        | some currentChecksum =>
          copyPhase e name content (chk sha content) currentChecksum s

/-- main.go lines 171-179: os.Remove of the destination file (an absent
file is an error, like any other removal failure), then the state-map
delete. -/
def removeDest (e : Env) (unit : String) (s : SyncState) : SyncState :=
  match s.dest unit with
  | none => { s with ok := false }
  | some _ =>
    if e.removeErr unit then { s with ok := false }
    else { s with dest := updO s.dest unit none, state := delFp s.state unit }

/-- Body of the trailing cleanup loop of sync (main.go lines 156-180):
skip the unit when `os.Stat` on its source path succeeds; otherwise stop
it, remove the destination file and delete the state entry. -/
def cleanupUnit (e : Env) (s : SyncState) (unit : String) : SyncState :=
  if (e.src unit).isSome && !e.statErr unit then s
  else
    let r := ensureStopped e s.active unit
    if r.err then { s with ok := false, acts := s.acts ++ r.acts }
    else removeDest e unit { s with active := r.active, acts := s.acts ++ r.acts }

/-- One reconciliation pass (main.go lines 84-183). -/
def sync (sha : Content → List Nat) (e : Env) (state0 : List (String × Fp))
    (dest0 : String → Option Content) (active0 : String → Bool) : SyncState :=
  match e.srcList with
  | none => { ok := false, state := state0, dest := dest0, active := active0, acts := [] }
  | some files =>
    let s1 := files.foldl (processUnit sha e)
      { ok := true, state := state0, dest := dest0, active := active0, acts := [] }
    (s1.state.map Prod.fst).foldl (cleanupUnit e) s1

/-- Every external operation of the pass succeeds. -/
def NoErrors (e : Env) : Prop :=
  (∀ u, e.srcErr u = false ∧ e.destErr u = false ∧ e.copyErr u = false ∧
    e.removeErr u = false ∧ e.statErr u = false ∧ e.startErr u = false ∧
    e.stopErr u = false ∧ e.restartErr u = false) ∧ e.reloadErr = false

/-! ### Event loop (main.go lines 59-82 and the closure of lines 48-53) -/

/-- The fsnotify operations; `chmod` is the one the switch on line 72
ignores. -/
inductive FsOp where
  | create
  | write
  | remove
  | rename
  | chmod
deriving DecidableEq

/-- One loop event: the single-shot timer firing, a directory
notification, the events channel closing, or a watcher error. -/
inductive LoopEvent where
  | timerFire
  | notify (op : FsOp)
  | eventsClosed
  | watchErr
deriving DecidableEq

/-- Loop state: the delay armed on the single timer, the reconciler's
state, and how many times the reconciler has been invoked. -/
structure Loop (σ : Type) where
  timer : Nat
  rstate : σ
  invocationCount : Nat

/-- Outcome of handling one event. -/
inductive LoopOut (σ : Type) where
  | next (s : Loop σ)
  | exitOk
  | exitErr

/-- `ticker.Reset(fn())` with fn from main.go lines 48-53: run the
reconciler once; re-arm with the resync interval when it converged and
the retry interval when it did not. -/
def tickFn (resyncI retryI : Nat) {σ : Type} (reconcile : σ → σ × Bool)
    (s : Loop σ) : Loop σ :=
  let r := reconcile s.rstate
  { timer := if r.2 then resyncI else retryI, rstate := r.1,
    invocationCount := s.invocationCount + 1 }

/-- One iteration of runLoop (main.go lines 63-80). -/
def loopStep (resyncI retryI : Nat) {σ : Type} (reconcile : σ → σ × Bool)
    (s : Loop σ) : LoopEvent → LoopOut σ
  | .timerFire => .next (tickFn resyncI retryI reconcile s)
  | .notify op =>
    match op with
    | .create | .write | .remove | .rename => .next (tickFn resyncI retryI reconcile s)
    | .chmod => .next s
  | .eventsClosed => .exitOk
  | .watchErr => .exitErr

/-! ### Concrete instances used to evaluate the model on sample inputs -/

/-- A concrete 32-byte digest function standing in for SHA-256 in sample
evaluations (sha256 itself is an external library; the theorems are
parametric in the digest function). -/
def shaC (c : Content) : List Nat :=
  List.replicate 32 (c.foldl (fun a b => a + b) 0 % 256)

/-- An environment with an empty source directory and no failures. -/
def baseEnv : Env := {
  srcList := some [], src := fun _ => none,
  srcErr := fun _ => false, destErr := fun _ => false, copyErr := fun _ => false,
  removeErr := fun _ => false, statErr := fun _ => false, startErr := fun _ => false,
  stopErr := fun _ => false, restartErr := fun _ => false, reloadErr := false }

/-- Empty destination directory. -/
def dz : String → Option Content := fun _ => none

/-- No unit active. -/
def az : String → Bool := fun _ => false

/-- Sample source directory holding one ordinary unit file. -/
def envOne : Env := { baseEnv with
  srcList := some ["a.service"],
  src := fun u => if u = "a.service" then some [1] else none }

/-- Sample source directory holding only a vim backup file. -/
def envTilde : Env := { baseEnv with
  srcList := some ["a~"],
  src := fun u => if u = "a~" then some [1] else none }

/-- Sample source directory whose only listed entry has been deleted
between the listing and the read. -/
def envGone : Env := { baseEnv with srcList := some ["a.service"] }

/-- Listing failure environment. -/
def envNoList : Env := { baseEnv with srcList := none }

/-- Environment whose stat of the (present) source file fails. -/
def envStatErr : Env := { envOne with statErr := fun u => u == "a.service" }

/-- Source directory with unit "a" holding byte 1. -/
def envChange : Env := { baseEnv with
  srcList := some ["a"],
  src := fun u => if u = "a" then some [1] else none }

/-- Destination directory already holding stale contents for "a". -/
def dStale : String → Option Content := fun u => if u = "a" then some [2] else none

/-- Destination directory holding contents for "a.service". -/
def dOne : String → Option Content := fun u => if u = "a.service" then some [1] else none

/-- Every unit active. -/
def aT : String → Bool := fun _ => true

/-! ### Lemmas about the state-map operations -/

theorem lookupFp_setFp (st : List (String × Fp)) (u x : String) (v : Fp) :
    lookupFp (setFp st u v) x = if u = x then some v else lookupFp st x := by
  induction st with
  | nil => by_cases h : u = x <;> simp [setFp, lookupFp, h]
  | cons p t ih =>
    by_cases hpu : p.1 = u
    · by_cases hux : u = x
      · simp [setFp, hpu, lookupFp, hux]
      · have hpx : ¬ p.1 = x := by rw [hpu]; exact hux
        simp [setFp, hpu, lookupFp, hux, hpx]
    · simp only [setFp, if_neg hpu, lookupFp]
      by_cases hpx : p.1 = x
      · have hux : ¬ u = x := fun e => hpu (hpx.trans e.symm)
        simp [hpx, hux]
      · simp [hpx, ih]

theorem lookupFp_delFp (st : List (String × Fp)) (u x : String) :
    lookupFp (delFp st u) x = if u = x then none else lookupFp st x := by
  induction st with
  | nil => by_cases h : u = x <;> simp [delFp, lookupFp, h]
  | cons p t ih =>
    by_cases hpu : p.1 = u
    · simp only [delFp, if_pos hpu, ih]
      by_cases hux : u = x
      · simp [hux]
      · have hpx : ¬ p.1 = x := fun e => hux (hpu.symm.trans e)
        simp [hux, lookupFp, hpx]
    · simp only [delFp, if_neg hpu, lookupFp]
      by_cases hpx : p.1 = x
      · have hux : ¬ u = x := fun e => hpu (hpx.trans e.symm)
        simp [hpx, hux]
      · simp [hpx, ih]

theorem setFp_eq_self (st : List (String × Fp)) (u : String) (v : Fp)
    (h : lookupFp st u = some v) : setFp st u v = st := by
  induction st with
  | nil => simp [lookupFp] at h
  | cons p t ih =>
    by_cases hpu : p.1 = u
    · simp only [lookupFp, if_pos hpu] at h
      obtain ⟨k, w⟩ := p
      simp only at hpu
      subst hpu
      obtain rfl : w = v := Option.some.inj h
      simp [setFp]
    · simp only [lookupFp, if_neg hpu] at h
      simp [setFp, hpu, ih h]

theorem lookupFp_mem (st : List (String × Fp)) (u : String) (v : Fp)
    (h : lookupFp st u = some v) : (u, v) ∈ st := by
  induction st with
  | nil => simp [lookupFp] at h
  | cons p t ih =>
    by_cases hpu : p.1 = u
    · simp only [lookupFp, if_pos hpu] at h
      obtain ⟨k, w⟩ := p
      simp only at hpu
      subst hpu
      obtain rfl : w = v := Option.some.inj h
      exact List.mem_cons_self _ _
    · simp only [lookupFp, if_neg hpu] at h
      exact List.mem_cons_of_mem _ (ih h)

theorem lookupFp_isSome_of_mem_keys (st : List (String × Fp)) (u : String)
    (h : u ∈ st.map Prod.fst) : (lookupFp st u).isSome = true := by
  induction st with
  | nil => simp at h
  | cons p t ih =>
    simp only [List.map_cons] at h
    rcases List.mem_cons.mp h with h1 | h1
    · simp [lookupFp, h1.symm]
    · by_cases hpu : p.1 = u
      · simp [lookupFp, hpu]
      · simp only [lookupFp, if_neg hpu]
        exact ih h1

theorem mem_keys_of_lookupFp (st : List (String × Fp)) (u : String)
    (h : lookupFp st u ≠ none) : u ∈ st.map Prod.fst := by
  induction st with
  | nil => simp [lookupFp] at h
  | cons p t ih =>
    simp only [List.map_cons]
    by_cases hpu : p.1 = u
    · exact List.mem_cons.mpr (Or.inl hpu.symm)
    · simp only [lookupFp, if_neg hpu] at h
      exact List.mem_cons.mpr (Or.inr (ih h))

theorem keys_setFp (st : List (String × Fp)) (u : String) (v : Fp) :
    (u ∈ st.map Prod.fst ∧ (setFp st u v).map Prod.fst = st.map Prod.fst) ∨
      (u ∉ st.map Prod.fst ∧ (setFp st u v).map Prod.fst = st.map Prod.fst ++ [u]) := by
  induction st with
  | nil => right; simp [setFp]
  | cons p t ih =>
    by_cases hpu : p.1 = u
    · left
      refine ⟨List.mem_cons.mpr (Or.inl hpu.symm), ?_⟩
      simp [setFp, hpu]
    · rcases ih with ⟨h1, h2⟩ | ⟨h1, h2⟩
      · left
        refine ⟨List.mem_cons.mpr (Or.inr h1), ?_⟩
        simp [setFp, hpu, h2]
      · right
        constructor
        · intro hc
          rcases List.mem_cons.mp hc with hc1 | hc1
          · exact hpu hc1.symm
          · exact h1 hc1
        · simp [setFp, hpu, h2]

theorem keys_setFp_nodup (st : List (String × Fp)) (u : String) (v : Fp)
    (hnd : (st.map Prod.fst).Nodup) : ((setFp st u v).map Prod.fst).Nodup := by
  rcases keys_setFp st u v with ⟨_, h2⟩ | ⟨h1, h2⟩
  · rw [h2]; exact hnd
  · rw [h2]
    refine List.Nodup.append hnd (List.nodup_singleton u) ?_
    intro a ha hb
    obtain rfl := List.mem_singleton.mp hb
    exact h1 ha

theorem mem_setFp (st : List (String × Fp)) (u : String) (v : Fp) (p : String × Fp)
    (h : p ∈ setFp st u v) : p ∈ st ∨ p.2 = v := by
  induction st with
  | nil => simp [setFp] at h; simp [h]
  | cons q t ih =>
    by_cases hq : q.1 = u
    · simp only [setFp, if_pos hq] at h
      rcases List.mem_cons.mp h with h1 | h1
      · right; simp [h1]
      · left; exact List.mem_cons_of_mem _ h1
    · simp only [setFp, if_neg hq] at h
      rcases List.mem_cons.mp h with h1 | h1
      · left; simp [h1]
      · rcases ih h1 with h2 | h2
        · left; exact List.mem_cons_of_mem _ h2
        · right; exact h2

theorem mem_delFp (st : List (String × Fp)) (u : String) (p : String × Fp)
    (h : p ∈ delFp st u) : p ∈ st := by
  induction st with
  | nil => simp [delFp] at h
  | cons q t ih =>
    by_cases hq : q.1 = u
    · simp only [delFp, if_pos hq] at h
      exact List.mem_cons_of_mem _ (ih h)
    · simp only [delFp, if_neg hq] at h
      rcases List.mem_cons.mp h with h1 | h1
      · simp [h1]
      · exact List.mem_cons_of_mem _ (ih h1)

theorem updO_apply (f : String → Option Content) (u x : String) (v : Option Content) :
    updO f u v x = if x = u then v else f x := rfl

theorem updB_apply (f : String → Bool) (u x : String) (b : Bool) :
    updB f u b x = if x = u then b else f x := rfl

/-! ### Shape lemmas: which fields each phase of the pass can touch -/

theorem runBranch_dest (e : Env) (u : String) (cs ccs : Fp) (s : SyncState) :
    (runBranch e u cs ccs s).dest = s.dest := by
  unfold runBranch ensureRunning restartCmd
  split_ifs <;> rfl

theorem runBranch_state (e : Env) (u : String) (cs ccs : Fp) (s : SyncState) :
    (runBranch e u cs ccs s).state = s.state ∨
      (runBranch e u cs ccs s).state = setFp s.state u cs := by
  unfold runBranch ensureRunning restartCmd
  split_ifs <;> simp

theorem runBranch_ok (e : Env) (u : String) (cs ccs : Fp) (s : SyncState) :
    (runBranch e u cs ccs s).ok = s.ok ∨ (runBranch e u cs ccs s).ok = false := by
  unfold runBranch ensureRunning restartCmd
  split_ifs <;> simp

theorem copyPhase_dest (e : Env) (u : String) (c : Content) (cs ccs : Fp) (s : SyncState) :
    (copyPhase e u c cs ccs s).dest = s.dest ∨
      (copyPhase e u c cs ccs s).dest = updO s.dest u (some c) := by
  unfold copyPhase
  split_ifs <;> simp [runBranch_dest]

theorem copyPhase_state (e : Env) (u : String) (c : Content) (cs ccs : Fp) (s : SyncState) :
    (copyPhase e u c cs ccs s).state = s.state ∨
      (copyPhase e u c cs ccs s).state = setFp s.state u cs := by
  unfold copyPhase
  split_ifs
  · exact runBranch_state e u cs ccs s
  · simp
  · exact runBranch_state e u cs ccs _

theorem copyPhase_ok (e : Env) (u : String) (c : Content) (cs ccs : Fp) (s : SyncState) :
    (copyPhase e u c cs ccs s).ok = s.ok ∨ (copyPhase e u c cs ccs s).ok = false := by
  unfold copyPhase
  split_ifs
  · exact runBranch_ok e u cs ccs s
  · simp
  · exact runBranch_ok e u cs ccs _

theorem processUnit_dest_cases (sha : Content → List Nat) (e : Env) (s : SyncState)
    (n : String) :
    (processUnit sha e s n).dest = s.dest ∨
      ∃ c, (processUnit sha e s n).dest = updO s.dest n (some c) := by
  have H : ∀ (content : Content) (ccs : Fp),
      (copyPhase e n content (chk sha content) ccs s).dest = s.dest ∨
        ∃ c, (copyPhase e n content (chk sha content) ccs s).dest = updO s.dest n (some c) :=
    fun content ccs =>
      (copyPhase_dest e n content (chk sha content) ccs s).imp id (fun h => ⟨content, h⟩)
  unfold processUnit
  split
  · exact Or.inl rfl
  · split
    · exact Or.inl rfl
    · split
      · exact Or.inl rfl
      · split
        · exact Or.inl rfl
        · exact H _ _

theorem processUnit_state_cases (sha : Content → List Nat) (e : Env) (s : SyncState)
    (n : String) :
    (processUnit sha e s n).state = s.state ∨
      (skipName n = false ∧ ∃ v, (processUnit sha e s n).state = setFp s.state n v) := by
  unfold processUnit
  split
  · exact Or.inl rfl
  · rename_i hskip
    have hskip' : skipName n = false := by simpa using hskip
    have H : ∀ (content : Content) (ccs : Fp),
        (copyPhase e n content (chk sha content) ccs s).state = s.state ∨
          (skipName n = false ∧
            ∃ v, (copyPhase e n content (chk sha content) ccs s).state = setFp s.state n v) :=
      fun content ccs =>
        (copyPhase_state e n content (chk sha content) ccs s).imp id
          (fun h => ⟨hskip', _, h⟩)
    split
    · exact Or.inl rfl
    · split
      · exact Or.inl rfl
      · split
        · exact Or.inl rfl
        · exact H _ _

theorem processUnit_ok_mono (sha : Content → List Nat) (e : Env) (s : SyncState)
    (n : String) (h : (processUnit sha e s n).ok = true) : s.ok = true := by
  revert h
  have H : ∀ (content : Content) (ccs : Fp),
      (copyPhase e n content (chk sha content) ccs s).ok = true → s.ok = true := by
    intro content ccs hh
    rcases copyPhase_ok e n content (chk sha content) ccs s with h1 | h1
    · rw [h1] at hh; exact hh
    · rw [h1] at hh; exact absurd hh (by simp)
  unfold processUnit
  split
  · exact id
  · split
    · simp
    · split
      · simp
      · split
        · simp
        · exact H _ _

theorem cleanupUnit_state_cases (e : Env) (s : SyncState) (u : String) :
    (cleanupUnit e s u).state = s.state ∨ (cleanupUnit e s u).state = delFp s.state u := by
  unfold cleanupUnit ensureStopped removeDest
  split_ifs <;> try (left ; rfl)
  all_goals (cases hd : s.dest u)
  all_goals simp [hd]

theorem cleanupUnit_dest_cases (e : Env) (s : SyncState) (u : String) :
    (cleanupUnit e s u).dest = s.dest ∨ (cleanupUnit e s u).dest = updO s.dest u none := by
  unfold cleanupUnit ensureStopped removeDest
  split_ifs <;> try (left ; rfl)
  all_goals (cases hd : s.dest u)
  all_goals simp [hd]

theorem cleanupUnit_ok_mono (e : Env) (s : SyncState) (u : String)
    (h : (cleanupUnit e s u).ok = true) : s.ok = true := by
  revert h
  unfold cleanupUnit ensureStopped removeDest
  split_ifs <;> try exact id
  all_goals try simp
  all_goals (cases hd : s.dest u)
  all_goals simp [hd]

/-! ### Consequences of the shape lemmas: frames, origins, nodup -/

theorem processUnit_state_frame (sha : Content → List Nat) (e : Env) (s : SyncState)
    (n x : String) (hx : x ≠ n) :
    lookupFp (processUnit sha e s n).state x = lookupFp s.state x := by
  rcases processUnit_state_cases sha e s n with h | ⟨_, v, h⟩
  · rw [h]
  · rw [h, lookupFp_setFp, if_neg (fun hh => hx hh.symm)]

theorem processUnit_dest_frame (sha : Content → List Nat) (e : Env) (s : SyncState)
    (n x : String) (hx : x ≠ n) :
    (processUnit sha e s n).dest x = s.dest x := by
  rcases processUnit_dest_cases sha e s n with h | ⟨c, h⟩
  · rw [h]
  · rw [h, updO_apply]
    simp [hx]

theorem processUnit_origin (sha : Content → List Nat) (e : Env) (s : SyncState)
    (n x : String) (h : lookupFp (processUnit sha e s n).state x ≠ none) :
    lookupFp s.state x ≠ none ∨ (x = n ∧ skipName n = false) := by
  rcases processUnit_state_cases sha e s n with h1 | ⟨hsk, v, h1⟩
  · rw [h1] at h; exact Or.inl h
  · rw [h1, lookupFp_setFp] at h
    by_cases hx : n = x
    · exact Or.inr ⟨hx.symm, hsk⟩
    · rw [if_neg hx] at h; exact Or.inl h

theorem processUnit_keys_nodup (sha : Content → List Nat) (e : Env) (s : SyncState)
    (n : String) (h : (s.state.map Prod.fst).Nodup) :
    ((processUnit sha e s n).state.map Prod.fst).Nodup := by
  rcases processUnit_state_cases sha e s n with h1 | ⟨_, v, h1⟩
  · rw [h1]; exact h
  · rw [h1]; exact keys_setFp_nodup _ _ _ h

theorem cleanupUnit_state_frame (e : Env) (s : SyncState) (u x : String) (hx : x ≠ u) :
    lookupFp (cleanupUnit e s u).state x = lookupFp s.state x := by
  rcases cleanupUnit_state_cases e s u with h | h
  · rw [h]
  · rw [h, lookupFp_delFp, if_neg (fun hh => hx hh.symm)]

theorem cleanupUnit_dest_frame (e : Env) (s : SyncState) (u x : String) (hx : x ≠ u) :
    (cleanupUnit e s u).dest x = s.dest x := by
  rcases cleanupUnit_dest_cases e s u with h | h
  · rw [h]
  · rw [h, updO_apply]
    simp [hx]

theorem cleanupUnit_none_stays (e : Env) (s : SyncState) (u x : String)
    (h : lookupFp s.state x = none) : lookupFp (cleanupUnit e s u).state x = none := by
  rcases cleanupUnit_state_cases e s u with h1 | h1
  · rw [h1]; exact h
  · rw [h1, lookupFp_delFp]
    by_cases hx : u = x <;> simp [hx, h]

/-! ### Fold lemmas over the two loops of the pass -/

theorem foldl_processUnit_ok_mono (sha : Content → List Nat) (e : Env) (l : List String)
    (s : SyncState) (h : (l.foldl (processUnit sha e) s).ok = true) : s.ok = true := by
  induction l generalizing s with
  | nil => exact h
  | cons n t ih => exact processUnit_ok_mono sha e s n (ih _ h)

theorem foldl_processUnit_state_frame (sha : Content → List Nat) (e : Env) (l : List String)
    (s : SyncState) (x : String) (hx : x ∉ l) :
    lookupFp (l.foldl (processUnit sha e) s).state x = lookupFp s.state x := by
  induction l generalizing s with
  | nil => rfl
  | cons n t ih =>
    have hxn : x ≠ n := fun h => hx (h ▸ List.mem_cons_self n t)
    have hxt : x ∉ t := fun h => hx (List.mem_cons_of_mem n h)
    rw [List.foldl_cons, ih _ hxt, processUnit_state_frame sha e s n x hxn]

theorem foldl_processUnit_dest_frame (sha : Content → List Nat) (e : Env) (l : List String)
    (s : SyncState) (x : String) (hx : x ∉ l) :
    (l.foldl (processUnit sha e) s).dest x = s.dest x := by
  induction l generalizing s with
  | nil => rfl
  | cons n t ih =>
    have hxn : x ≠ n := fun h => hx (h ▸ List.mem_cons_self n t)
    have hxt : x ∉ t := fun h => hx (List.mem_cons_of_mem n h)
    rw [List.foldl_cons, ih _ hxt, processUnit_dest_frame sha e s n x hxn]

theorem foldl_processUnit_origin (sha : Content → List Nat) (e : Env) (l : List String)
    (s : SyncState) (x : String)
    (h : lookupFp (l.foldl (processUnit sha e) s).state x ≠ none) :
    lookupFp s.state x ≠ none ∨ (x ∈ l ∧ skipName x = false) := by
  induction l generalizing s with
  | nil => exact Or.inl h
  | cons n t ih =>
    rw [List.foldl_cons] at h
    rcases ih _ h with h1 | ⟨h1, h2⟩
    · rcases processUnit_origin sha e s n x h1 with h2 | ⟨rfl, h3⟩
      · exact Or.inl h2
      · exact Or.inr ⟨List.mem_cons_self _ _, h3⟩
    · exact Or.inr ⟨List.mem_cons_of_mem _ h1, h2⟩

theorem foldl_processUnit_keys_nodup (sha : Content → List Nat) (e : Env) (l : List String)
    (s : SyncState) (h : (s.state.map Prod.fst).Nodup) :
    (((l.foldl (processUnit sha e) s).state.map Prod.fst)).Nodup := by
  induction l generalizing s with
  | nil => exact h
  | cons n t ih => exact ih _ (processUnit_keys_nodup sha e s n h)

theorem foldl_cleanupUnit_ok_mono (e : Env) (l : List String) (s : SyncState)
    (h : (l.foldl (cleanupUnit e) s).ok = true) : s.ok = true := by
  induction l generalizing s with
  | nil => exact h
  | cons n t ih => exact cleanupUnit_ok_mono e s n (ih _ h)

theorem foldl_cleanupUnit_none_stays (e : Env) (l : List String) (s : SyncState)
    (x : String) (h : lookupFp s.state x = none) :
    lookupFp (l.foldl (cleanupUnit e) s).state x = none := by
  induction l generalizing s with
  | nil => exact h
  | cons n t ih => exact ih _ (cleanupUnit_none_stays e s n x h)

theorem foldl_cleanupUnit_keep (e : Env) (l : List String) (s : SyncState) (x : String)
    (hsrc : (e.src x).isSome = true) (hstat : e.statErr x = false) :
    lookupFp (l.foldl (cleanupUnit e) s).state x = lookupFp s.state x ∧
      (l.foldl (cleanupUnit e) s).dest x = s.dest x := by
  induction l generalizing s with
  | nil => exact ⟨rfl, rfl⟩
  | cons n t ih =>
    rw [List.foldl_cons]
    by_cases hxn : x = n
    · subst hxn
      have hid : cleanupUnit e s x = s := by
        unfold cleanupUnit
        rw [if_pos (by simp [hsrc, hstat])]
      rw [hid]
      exact ih s
    · obtain ⟨h1, h2⟩ := ih (cleanupUnit e s n)
      rw [h1, h2, cleanupUnit_state_frame e s n x hxn, cleanupUnit_dest_frame e s n x hxn]
      exact ⟨rfl, rfl⟩

theorem foldl_identity {α β : Type} (f : β → α → β) (s : β) (l : List α)
    (h : ∀ n ∈ l, f s n = s) : l.foldl f s = s := by
  induction l with
  | nil => rfl
  | cons n t ih =>
    rw [List.foldl_cons, h n (List.mem_cons_self n t)]
    exact ih (fun m hm => h m (List.mem_cons_of_mem n hm))

/-! ### Fingerprint facts -/

theorem hexChars_length (bs : List Nat) : (hexChars bs).length = 2 * bs.length := by
  induction bs with
  | nil => simp [hexChars]
  | cons b t ih =>
    simp only [hexChars, List.length_cons, ih, List.length]
    ring

theorem chk_length (sha : Content → List Nat) (hsha : ShaGood sha) (c : Content) :
    (chk sha c).length = 64 := by
  have h := (hsha c).1
  simp [chk, hexEncode, String.length, hexChars_length, h]

theorem chk_ne_empty (sha : Content → List Nat) (hsha : ShaGood sha) (c : Content) :
    chk sha c ≠ "" := by
  intro h
  have h1 := chk_length sha hsha c
  rw [h] at h1
  simp [String.length] at h1

theorem lookupFp_of_stateGet (st : List (String × Fp)) (u : String) (v : Fp)
    (hne : v ≠ "") (h : stateGet st u = v) : lookupFp st u = some v := by
  unfold stateGet at h
  cases hl : lookupFp st u with
  | none => rw [hl] at h; simp at h; exact absurd h.symm hne
  | some w => rw [hl] at h; simp at h; rw [h]

/-! ### Behaviour of one scan step on its own unit -/

theorem cleanupUnit_skip (e : Env) (s : SyncState) (u : String)
    (hsrc : (e.src u).isSome = true) (hstat : e.statErr u = false) :
    cleanupUnit e s u = s := by
  unfold cleanupUnit
  rw [if_pos (by simp [hsrc, hstat])]

theorem processUnit_success (sha : Content → List Nat) (e : Env) (s : SyncState)
    (u : String) (c : Content) (hsha : ShaGood sha) (herr : NoErrors e)
    (hskip : skipName u = false) (hsrc : e.src u = some c) :
    lookupFp (processUnit sha e s u).state u = some (chk sha c) ∧
      (∃ d, (processUnit sha e s u).dest u = some d ∧ chk sha d = chk sha c) ∧
      (processUnit sha e s u).ok = s.ok := by
  obtain ⟨hall, hrel⟩ := herr
  obtain ⟨h1, h2, h3, h4, h5, h6, h7, h8⟩ := hall u
  have hne := chk_ne_empty sha hsha
  unfold processUnit
  rw [hskip, hsrc, h1]
  simp only [Bool.false_eq_true, if_false]
  cases hd : s.dest u with
  | none =>
    have hrd : readDestChecksum sha e s.dest u = some "" := by
      simp [readDestChecksum, hd]
    simp only [hrd]
    unfold copyPhase
    rw [if_neg (hne c), h3]
    simp only [Bool.false_eq_true, if_false]
    unfold runBranch ensureRunning
    rw [if_pos (Or.inr rfl)]
    by_cases hact : s.active u
    · simp [hact, lookupFp_setFp, updO_apply, hne c]
    · simp [hact, h6, lookupFp_setFp, updO_apply, hne c]
  | some d =>
    have hrd : readDestChecksum sha e s.dest u = some (chk sha d) := by
      simp [readDestChecksum, hd, h2]
    simp only [hrd]
    by_cases hcd : chk sha c = chk sha d
    · unfold copyPhase
      rw [if_pos hcd]
      unfold runBranch ensureRunning
      rw [if_pos (Or.inl hcd)]
      by_cases hact : s.active u
      · simp [hact, lookupFp_setFp, hd, hcd.symm]
      · simp [hact, h6, lookupFp_setFp, hd, hcd.symm]
    · unfold copyPhase
      rw [if_neg hcd, h3]
      simp only [Bool.false_eq_true, if_false]
      unfold runBranch restartCmd
      rw [if_neg (by push_neg; exact ⟨hcd, hne d⟩)]
      by_cases hsg : chk sha c = stateGet s.state u
      · rw [if_neg (by simpa using hsg)]
        have hl : lookupFp s.state u = some (chk sha c) :=
          lookupFp_of_stateGet s.state u (chk sha c) (hne c) hsg.symm
        simp [hl, updO_apply]
      · rw [if_pos (by simpa using hsg), hrel]
        simp only [Bool.false_eq_true, if_false]
        rw [h8]
        simp [lookupFp_setFp, updO_apply]

theorem cleanupUnit_gone (e : Env) (s : SyncState) (u : String) (herr : NoErrors e)
    (hsrc : e.src u = none) (hok : (cleanupUnit e s u).ok = true) :
    lookupFp (cleanupUnit e s u).state u = none := by
  obtain ⟨hall, hrel⟩ := herr
  obtain ⟨h1, h2, h3, h4, h5, h6, h7, h8⟩ := hall u
  revert hok
  unfold cleanupUnit ensureStopped removeDest
  rw [hsrc]
  simp only [Option.isSome_none, Bool.false_and, Bool.false_eq_true, if_false]
  by_cases hact : s.active u
  · rw [if_pos hact, h7]
    simp only [Bool.false_eq_true, if_false]
    cases hd : s.dest u with
    | none => intro hok; simp at hok
    | some d =>
      rw [h4]
      intro _
      simp [lookupFp_delFp]
  · rw [if_neg hact]
    simp only [Bool.false_eq_true, if_false]
    cases hd : s.dest u with
    | none => intro hok; simp at hok
    | some d =>
      rw [h4]
      intro _
      simp [lookupFp_delFp]

/-! ### Unfolding sync -/

theorem sync_some (sha : Content → List Nat) (e : Env) (st0 : List (String × Fp))
    (d0 : String → Option Content) (a0 : String → Bool) (files : List String)
    (h : e.srcList = some files) :
    sync sha e st0 d0 a0 =
      ((files.foldl (processUnit sha e) ⟨true, st0, d0, a0, []⟩).state.map Prod.fst).foldl
        (cleanupUnit e) (files.foldl (processUnit sha e) ⟨true, st0, d0, a0, []⟩) := by
  unfold sync
  rw [h]

theorem sync_none (sha : Content → List Nat) (e : Env) (st0 : List (String × Fp))
    (d0 : String → Option Content) (a0 : String → Bool)
    (h : e.srcList = none) :
    sync sha e st0 d0 a0 = ⟨false, st0, d0, a0, []⟩ := by
  unfold sync
  rw [h]

theorem mem_desiredSet (files : List String) (u : String) :
    u ∈ desiredSet files ↔ (u ∈ files ∧ skipName u = false) := by
  simp [desiredSet, List.mem_filter]

theorem sync_present (sha : Content → List Nat) (e : Env) (st0 : List (String × Fp))
    (d0 : String → Option Content) (a0 : String → Bool) (files : List String)
    (u : String) (c : Content)
    (hsha : ShaGood sha) (herr : NoErrors e) (hlist : e.srcList = some files)
    (hnd : files.Nodup) (hu : u ∈ files) (hskip : skipName u = false)
    (hsrc : e.src u = some c) :
    lookupFp (sync sha e st0 d0 a0).state u = some (chk sha c) ∧
      ∃ d, (sync sha e st0 d0 a0).dest u = some d ∧ chk sha d = chk sha c := by
  rw [sync_some sha e st0 d0 a0 files hlist]
  obtain ⟨l1, l2, rfl⟩ := List.append_of_mem hu
  have hnotl2 : u ∉ l2 := by
    have h2 := (List.Nodup.of_append_right hnd : (u :: l2).Nodup)
    exact (List.nodup_cons.mp h2).1
  set s0 : SyncState := ⟨true, st0, d0, a0, []⟩ with hs0
  rw [List.foldl_append, List.foldl_cons]
  set mid := processUnit sha e ((l1).foldl (processUnit sha e) s0) u with hmid
  obtain ⟨ha, ⟨d, hb, hbe⟩, _⟩ :=
    processUnit_success sha e ((l1).foldl (processUnit sha e) s0) u c hsha herr hskip hsrc
  have hs1a : lookupFp (l2.foldl (processUnit sha e) mid).state u = some (chk sha c) := by
    rw [foldl_processUnit_state_frame sha e l2 mid u hnotl2]
    exact ha
  have hs1b : (l2.foldl (processUnit sha e) mid).dest u = some d := by
    rw [foldl_processUnit_dest_frame sha e l2 mid u hnotl2]
    exact hb
  have hsome : (e.src u).isSome = true := by rw [hsrc]; rfl
  have hstat : e.statErr u = false := (herr.1 u).2.2.2.2.1
  obtain ⟨hk1, hk2⟩ := foldl_cleanupUnit_keep e
    (((l2.foldl (processUnit sha e) mid)).state.map Prod.fst)
    (l2.foldl (processUnit sha e) mid) u hsome hstat
  refine ⟨by rw [hk1]; exact hs1a, d, by rw [hk2]; exact hs1b, hbe⟩

theorem sync_absent (sha : Content → List Nat) (e : Env) (st0 : List (String × Fp))
    (d0 : String → Option Content) (a0 : String → Bool) (files : List String)
    (u : String)
    (herr : NoErrors e) (hlist : e.srcList = some files)
    (hnd0 : (st0.map Prod.fst).Nodup)
    (hok : (sync sha e st0 d0 a0).ok = true)
    (hsrc : e.src u = none) :
    lookupFp (sync sha e st0 d0 a0).state u = none := by
  rw [sync_some sha e st0 d0 a0 files hlist] at hok ⊢
  set s0 : SyncState := ⟨true, st0, d0, a0, []⟩ with hs0
  set s1 := files.foldl (processUnit sha e) s0 with hs1
  by_cases hmid : lookupFp s1.state u = none
  · exact foldl_cleanupUnit_none_stays e _ s1 u hmid
  · have hkeys : u ∈ s1.state.map Prod.fst := mem_keys_of_lookupFp _ u hmid
    obtain ⟨k1, k2, hk⟩ := List.append_of_mem hkeys
    have hkeysnd : (s1.state.map Prod.fst).Nodup :=
      foldl_processUnit_keys_nodup sha e files s0 hnd0
    have hnotk2 : u ∉ k2 := by
      rw [hk] at hkeysnd
      exact (List.nodup_cons.mp (List.Nodup.of_append_right hkeysnd)).1
    rw [hk, List.foldl_append, List.foldl_cons] at hok ⊢
    set mid1 := k1.foldl (cleanupUnit e) s1 with hmid1
    have hokstep : (cleanupUnit e mid1 u).ok = true :=
      foldl_cleanupUnit_ok_mono e k2 _ hok
    have hgone : lookupFp (cleanupUnit e mid1 u).state u = none :=
      cleanupUnit_gone e mid1 u herr hsrc hokstep
    exact foldl_cleanupUnit_none_stays e k2 _ u hgone

theorem shaGood_shaC : ShaGood shaC := by
  intro c
  constructor
  · simp [shaC]
  · intro b hb
    simp only [shaC, List.mem_replicate] at hb
    rw [hb.2]
    exact Nat.mod_lt _ (by decide)

theorem hexDigit_isHexChar (n : Nat) (h : n < 16) : isHexChar (hexDigit n) = true := by
  interval_cases n <;> decide

theorem mem_hexChars (bs : List Nat) (ch : Char) (h : ch ∈ hexChars bs) :
    ∃ b, ch = hexDigit (b % 256 / 16) ∨ ch = hexDigit (b % 16) := by
  induction bs with
  | nil => simp [hexChars] at h
  | cons b t ih =>
    simp only [hexChars] at h
    rcases List.mem_cons.mp h with h1 | h1
    · exact ⟨b, Or.inl h1⟩
    · rcases List.mem_cons.mp h1 with h2 | h2
      · exact ⟨b, Or.inr h2⟩
      · exact ih h2

theorem chk_chars_hex (sha : Content → List Nat) (c : Content) (ch : Char)
    (h : ch ∈ (chk sha c).data) : isHexChar ch = true := by
  have h1 : ch ∈ hexChars (sha c) := by simpa [chk, hexEncode] using h
  obtain ⟨b, hb | hb⟩ := mem_hexChars _ _ h1
  · rw [hb]
    refine hexDigit_isHexChar _ ?_
    have h2 : b % 256 < 256 := Nat.mod_lt _ (by decide)
    exact (Nat.div_lt_iff_lt_mul (by decide)).mpr (by omega)
  · rw [hb]
    exact hexDigit_isHexChar _ (Nat.mod_lt _ (by decide))

theorem processUnit_values (sha : Content → List Nat) (e : Env) (s : SyncState)
    (n : String) (p : String × Fp) (h : p ∈ (processUnit sha e s n).state) :
    p ∈ s.state ∨ ∃ cc, p.2 = chk sha cc := by
  have H : ∀ (content : Content) (ccs : Fp),
      ∀ q ∈ (copyPhase e n content (chk sha content) ccs s).state,
        q ∈ s.state ∨ ∃ cc, q.2 = chk sha cc := by
    intro content ccs q hq
    rcases copyPhase_state e n content (chk sha content) ccs s with h1 | h1
    · rw [h1] at hq
      exact Or.inl hq
    · rw [h1] at hq
      rcases mem_setFp s.state n (chk sha content) q hq with h2 | h2
      · exact Or.inl h2
      · exact Or.inr ⟨content, h2⟩
  revert h
  unfold processUnit
  split
  · exact fun h => Or.inl h
  · split
    · exact fun h => Or.inl h
    · split
      · exact fun h => Or.inl h
      · split
        · exact fun h => Or.inl h
        · exact fun h => H _ _ p h

theorem cleanupUnit_values (e : Env) (s : SyncState) (u : String) (p : String × Fp)
    (h : p ∈ (cleanupUnit e s u).state) : p ∈ s.state := by
  rcases cleanupUnit_state_cases e s u with h1 | h1
  · rw [h1] at h
    exact h
  · rw [h1] at h
    exact mem_delFp s.state u p h

theorem foldl_processUnit_values (sha : Content → List Nat) (e : Env) (l : List String)
    (s : SyncState) (p : String × Fp) (h : p ∈ (l.foldl (processUnit sha e) s).state) :
    p ∈ s.state ∨ ∃ cc, p.2 = chk sha cc := by
  induction l generalizing s with
  | nil => exact Or.inl h
  | cons n t ih =>
    rw [List.foldl_cons] at h
    rcases ih _ h with h1 | h1
    · exact processUnit_values sha e s n p h1
    · exact Or.inr h1

theorem foldl_cleanupUnit_values (e : Env) (l : List String) (s : SyncState)
    (p : String × Fp) (h : p ∈ (l.foldl (cleanupUnit e) s).state) : p ∈ s.state := by
  induction l generalizing s with
  | nil => exact h
  | cons n t ih =>
    rw [List.foldl_cons] at h
    exact cleanupUnit_values e s n p (ih _ h)

theorem sync_values (sha : Content → List Nat) (e : Env) (st0 : List (String × Fp))
    (d0 : String → Option Content) (a0 : String → Bool) (p : String × Fp)
    (h : p ∈ (sync sha e st0 d0 a0).state) : p ∈ st0 ∨ ∃ cc, p.2 = chk sha cc := by
  cases hl : e.srcList with
  | none =>
    rw [sync_none sha e st0 d0 a0 hl] at h
    exact Or.inl h
  | some files =>
    rw [sync_some sha e st0 d0 a0 files hl] at h
    exact foldl_processUnit_values sha e files _ p (foldl_cleanupUnit_values e _ _ p h)

/-! ### Claims -/

/-- C1, counterexample to the claim as stated: with a source directory
containing only the vim backup file "a~" (a skipped name) and an initial
Reconciliation State recording "a~", a pass returns true yet leaves "a~"
in the state map although the Desired Set is empty, because the trailing
cleanup scan only checks that the source file exists, not that the name is
a non-skipped unit. -/
theorem C1_counterexample :
    (sync shaC envTilde [("a~", "x")] dz az).ok = true ∧
      (lookupFp (sync shaC envTilde [("a~", "x")] dz az).state "a~").isSome = true ∧
      "a~" ∉ desiredSet ["a~"] := by
  decide

/-- C1 (amended): additionally assume that no key of the initial
Reconciliation State is a skipped name (ending in ".swp" or "~"), which
the daemon itself guarantees since it starts from an empty map and never
inserts skipped names.  Then, whenever the listing succeeds, the listing
agrees with the source contents, every external call succeeds and the
pass returns true, the key set of the Reconciliation State equals the
Desired Set, and every desired unit has its source fingerprint recorded
in state and a Destination Record with the same fingerprint. -/
theorem C1_state_convergence_amended
    (sha : Content → List Nat) (e : Env) (files : List String)
    (state0 : List (String × Fp)) (dest0 : String → Option Content)
    (active0 : String → Bool)
    (hsha : ShaGood sha) (hlist : e.srcList = some files) (hnd : files.Nodup)
    (hnd0 : (state0.map Prod.fst).Nodup)
    (hcons : ∀ u, u ∈ files ↔ (e.src u).isSome = true)
    (herr : NoErrors e)
    (hskip0 : ∀ p ∈ state0, skipName p.1 = false)
    (hok : (sync sha e state0 dest0 active0).ok = true) :
    (∀ u, (lookupFp (sync sha e state0 dest0 active0).state u).isSome = true ↔
       u ∈ desiredSet files) ∧
    (∀ u c, u ∈ desiredSet files → e.src u = some c →
       lookupFp (sync sha e state0 dest0 active0).state u = some (chk sha c) ∧
       ∃ d, (sync sha e state0 dest0 active0).dest u = some d ∧
         chk sha d = chk sha c) := by
  constructor
  · intro u
    constructor
    · intro h
      cases hsrc : e.src u with
      | none =>
        rw [sync_absent sha e state0 dest0 active0 files u herr hlist hnd0 hok hsrc] at h
        simp at h
      | some c =>
        have hu : u ∈ files := (hcons u).mpr (by rw [hsrc]; rfl)
        have hskipu : skipName u = false := by
          rw [sync_some sha e state0 dest0 active0 files hlist] at h
          have hne1 : lookupFp (((files.foldl (processUnit sha e)
              ⟨true, state0, dest0, active0, []⟩).state.map Prod.fst).foldl (cleanupUnit e)
              (files.foldl (processUnit sha e) ⟨true, state0, dest0, active0, []⟩)).state u
              ≠ none := by
            intro hn
            rw [hn] at h
            simp at h
          have hne2 : lookupFp (files.foldl (processUnit sha e)
              ⟨true, state0, dest0, active0, []⟩).state u ≠ none := by
            intro hn
            exact hne1 (foldl_cleanupUnit_none_stays e _ _ u hn)
          rcases foldl_processUnit_origin sha e files ⟨true, state0, dest0, active0, []⟩
              u hne2 with h1 | ⟨_, h2⟩
          · cases hl : lookupFp state0 u with
            | none => exact absurd hl h1
            | some v => exact hskip0 (u, v) (lookupFp_mem state0 u v hl)
          · exact h2
        exact (mem_desiredSet files u).mpr ⟨hu, hskipu⟩
    · intro h
      obtain ⟨hu, hskipu⟩ := (mem_desiredSet files u).mp h
      have hsome : (e.src u).isSome = true := (hcons u).mp hu
      cases hsrc : e.src u with
      | none => rw [hsrc] at hsome; simp at hsome
      | some c =>
        obtain ⟨h1, _⟩ := sync_present sha e state0 dest0 active0 files u c hsha herr
          hlist hnd hu hskipu hsrc
        rw [h1]
        rfl
  · intro u c hu hsrc
    obtain ⟨hu1, hu2⟩ := (mem_desiredSet files u).mp hu
    exact sync_present sha e state0 dest0 active0 files u c hsha herr hlist hnd hu1 hu2 hsrc

/-- C1, witness: the amended theorem applied to a one-unit source
directory starting from an empty state. -/
theorem C1_witness :
    (sync shaC envOne [] dz az).ok = true ∧
    ((∀ u, (lookupFp (sync shaC envOne [] dz az).state u).isSome = true ↔
        u ∈ desiredSet ["a.service"]) ∧
     (∀ u c, u ∈ desiredSet ["a.service"] → envOne.src u = some c →
        lookupFp (sync shaC envOne [] dz az).state u = some (chk shaC c) ∧
        ∃ d, (sync shaC envOne [] dz az).dest u = some d ∧ chk shaC d = chk shaC c)) :=
  ⟨by decide,
   C1_state_convergence_amended shaC envOne ["a.service"] [] dz az
     shaGood_shaC rfl (by decide) (by decide)
     (by
       intro u
       by_cases h : u = "a.service" <;> simp [envOne, baseEnv, h])
     ⟨fun u => ⟨rfl, rfl, rfl, rfl, rfl, rfl, rfl, rfl⟩, rfl⟩
     (by simp)
     (by decide)⟩

/-- On an already-converged unit (destination fingerprint equals the
source fingerprint, state records it, unit active) a scan step is the
identity. -/
theorem processUnit_noop (sha : Content → List Nat) (e : Env) (s : SyncState)
    (n : String) (c d : Content)
    (herr : NoErrors e)
    (hskip : skipName n = false) (hsrc : e.src n = some c)
    (hd : s.dest n = some d) (hde : chk sha d = chk sha c)
    (hst : lookupFp s.state n = some (chk sha c))
    (hact : s.active n = true) :
    processUnit sha e s n = s := by
  obtain ⟨hall, hrel⟩ := herr
  obtain ⟨h1, h2, h3, h4, h5, h6, h7, h8⟩ := hall n
  unfold processUnit
  rw [hskip, hsrc, h1]
  simp only [Bool.false_eq_true, if_false]
  have hrd : readDestChecksum sha e s.dest n = some (chk sha d) := by
    simp [readDestChecksum, hd, h2]
  simp only [hrd]
  unfold copyPhase
  rw [if_pos hde.symm]
  unfold runBranch ensureRunning
  rw [if_pos (Or.inl hde.symm), hact]
  simp [setFp_eq_self s.state n (chk sha c) hst]

/-- A scan step is the identity on skipped names. -/
theorem processUnit_skipped (sha : Content → List Nat) (e : Env) (s : SyncState)
    (n : String) (h : skipName n = true) : processUnit sha e s n = s := by
  unfold processUnit
  rw [h, if_pos rfl]

/-- C2, counterexample to the claim as stated: unit "a" has its source
fingerprint already recorded in the initial state while the destination
holds different bytes and the unit is inactive.  The first pass copies the
file but, since the recorded fingerprint equals the new one, neither
restarts nor starts the unit: it fully succeeds with zero actions.  The
second pass then sees destination = source and issues a start action, so
the second run does not perform zero control-interface actions. -/
theorem C2_counterexample :
    (sync shaC envChange [("a", chk shaC [1])] dStale az).ok = true ∧
      (sync shaC envChange [("a", chk shaC [1])] dStale az).acts = [] ∧
      (sync shaC envChange
          (sync shaC envChange [("a", chk shaC [1])] dStale az).state
          (sync shaC envChange [("a", chk shaC [1])] dStale az).dest
          (sync shaC envChange [("a", chk shaC [1])] dStale az).active).acts
        = [Action.start "a"] := by
  decide

/-- C2 (amended): additionally assume every unit of the Desired Set is
live after the first pass (which holds whenever the first pass itself
started or restarted each unit).  Then a second pass with no external
change performs zero control-interface actions, leaves every Destination
Record and the Reconciliation State unchanged, and returns converged. -/
theorem C2_idempotent_amended
    (sha : Content → List Nat) (e : Env) (files : List String)
    (state0 : List (String × Fp)) (dest0 : String → Option Content)
    (active0 : String → Bool)
    (hsha : ShaGood sha) (hlist : e.srcList = some files) (hnd : files.Nodup)
    (hnd0 : (state0.map Prod.fst).Nodup)
    (hcons : ∀ u, u ∈ files ↔ (e.src u).isSome = true)
    (herr : NoErrors e)
    (hok : (sync sha e state0 dest0 active0).ok = true)
    (hlive : ∀ u ∈ desiredSet files,
      (sync sha e state0 dest0 active0).active u = true) :
    (sync sha e (sync sha e state0 dest0 active0).state
        (sync sha e state0 dest0 active0).dest
        (sync sha e state0 dest0 active0).active).acts = [] ∧
    (sync sha e (sync sha e state0 dest0 active0).state
        (sync sha e state0 dest0 active0).dest
        (sync sha e state0 dest0 active0).active).state =
      (sync sha e state0 dest0 active0).state ∧
    (sync sha e (sync sha e state0 dest0 active0).state
        (sync sha e state0 dest0 active0).dest
        (sync sha e state0 dest0 active0).active).dest =
      (sync sha e state0 dest0 active0).dest ∧
    (sync sha e (sync sha e state0 dest0 active0).state
        (sync sha e state0 dest0 active0).dest
        (sync sha e state0 dest0 active0).active).ok = true := by
  set r1 := sync sha e state0 dest0 active0 with hr1
  rw [sync_some sha e r1.state r1.dest r1.active files hlist]
  set i2 : SyncState := ⟨true, r1.state, r1.dest, r1.active, []⟩ with hi2
  have hscan : files.foldl (processUnit sha e) i2 = i2 := by
    apply foldl_identity
    intro n hn
    cases hsk : skipName n with
    | true => exact processUnit_skipped sha e i2 n hsk
    | false =>
      have hsome : (e.src n).isSome = true := (hcons n).mp hn
      cases hsrc : e.src n with
      | none => rw [hsrc] at hsome; simp at hsome
      | some c =>
        obtain ⟨hst, d, hdst, hde⟩ := sync_present sha e state0 dest0 active0 files n c
          hsha herr hlist hnd hn hsk hsrc
        have hact : r1.active n = true :=
          hlive n ((mem_desiredSet files n).mpr ⟨hn, hsk⟩)
        exact processUnit_noop sha e i2 n c d herr hsk hsrc hdst hde hst hact
  rw [hscan]
  have hclean : (i2.state.map Prod.fst).foldl (cleanupUnit e) i2 = i2 := by
    apply foldl_identity
    intro k hk
    have hlk : lookupFp r1.state k ≠ none := by
      have h1 := lookupFp_isSome_of_mem_keys r1.state k hk
      intro hn
      rw [hn] at h1
      simp at h1
    have hsome : (e.src k).isSome = true := by
      cases hsrc : e.src k with
      | none =>
        exact absurd
          (sync_absent sha e state0 dest0 active0 files k herr hlist hnd0 hok hsrc) hlk
      | some c => rfl
    exact cleanupUnit_skip e i2 k hsome ((herr.1 k).2.2.2.2.1)
  rw [hclean]
  exact ⟨rfl, rfl, rfl, rfl⟩

/-- C2, witness: the amended theorem on a fresh one-unit directory, where
the first pass starts the unit, so the liveness side condition holds. -/
theorem C2_witness :
    (sync shaC envOne [] dz az).ok = true ∧
    ((sync shaC envOne (sync shaC envOne [] dz az).state
        (sync shaC envOne [] dz az).dest (sync shaC envOne [] dz az).active).acts = [] ∧
     (sync shaC envOne (sync shaC envOne [] dz az).state
        (sync shaC envOne [] dz az).dest (sync shaC envOne [] dz az).active).state =
       (sync shaC envOne [] dz az).state ∧
     (sync shaC envOne (sync shaC envOne [] dz az).state
        (sync shaC envOne [] dz az).dest (sync shaC envOne [] dz az).active).dest =
       (sync shaC envOne [] dz az).dest ∧
     (sync shaC envOne (sync shaC envOne [] dz az).state
        (sync shaC envOne [] dz az).dest (sync shaC envOne [] dz az).active).ok = true) :=
  ⟨by decide,
   C2_idempotent_amended shaC envOne ["a.service"] [] dz az
     shaGood_shaC rfl (by decide) (by decide)
     (by
       intro u
       by_cases h : u = "a.service" <;> simp [envOne, baseEnv, h])
     ⟨fun u => ⟨rfl, rfl, rfl, rfl, rfl, rfl, rfl, rfl⟩, rfl⟩
     (by decide)
     (by
       intro u hu
       have hd : desiredSet ["a.service"] = ["a.service"] := by decide
       rw [hd, List.mem_singleton] at hu
       subst hu
       decide)⟩

/-- C3: the claim is right about the intent but the code marks the pass
failed.  A unit listed by the directory scan whose file is gone when read
hits the `err != nil` branch of main.go line 101 (the `os.IsNotExist`
check on line 106 is dead code), so the pass logs an error, sets ok=false
and returns false — while the trailing cleanup scan does still stop the
unit, remove its Destination Record and delete its state entry. -/
theorem C3_deleted_source_marks_pass_failed :
    (sync shaC envGone [("a.service", "x")] dOne aT).ok = false ∧
      lookupFp (sync shaC envGone [("a.service", "x")] dOne aT).state "a.service" = none ∧
      (sync shaC envGone [("a.service", "x")] dOne aT).dest "a.service" = none ∧
      (sync shaC envGone [("a.service", "x")] dOne aT).acts = [Action.stop "a.service"] := by
  decide

/-- C4: for a unit recorded in Reconciliation State with no corresponding
source file, the cleanup scan of the pass first ensures the unit is
stopped; only on success does it remove the Destination Record and delete
the state entry, in that order.  A stop or removal failure marks the pass
failed and leaves the state entry (so the unit is retried next pass), and
on success exactly one stop action is issued when the unit was active. -/
theorem C4_cleanup_deleted_unit (e : Env) (s : SyncState) (u : String) (fp : Fp)
    (hrec : lookupFp s.state u = some fp) (hsrc : e.src u = none) :
    (s.active u = true → e.stopErr u = true →
      (cleanupUnit e s u).ok = false ∧
      lookupFp (cleanupUnit e s u).state u = some fp ∧
      (cleanupUnit e s u).dest = s.dest) ∧
    ((s.active u = true → e.stopErr u = false) →
      (s.dest u = none ∨ e.removeErr u = true) →
      (cleanupUnit e s u).ok = false ∧
      lookupFp (cleanupUnit e s u).state u = some fp ∧
      (cleanupUnit e s u).dest = s.dest) ∧
    (∀ d, (s.active u = true → e.stopErr u = false) →
      s.dest u = some d → e.removeErr u = false →
      lookupFp (cleanupUnit e s u).state u = none ∧
      (cleanupUnit e s u).dest u = none ∧
      (cleanupUnit e s u).acts = s.acts ++ (if s.active u then [Action.stop u] else []) ∧
      (cleanupUnit e s u).ok = s.ok) := by
  have hstat : ((e.src u).isSome && !e.statErr u) = false := by rw [hsrc]; rfl
  refine ⟨?_, ?_, ?_⟩
  · intro hact hstop
    unfold cleanupUnit ensureStopped
    rw [hstat]
    simp only [Bool.false_eq_true, if_false]
    rw [hact, hstop]
    simp [hrec]
  · intro himp hcase
    unfold cleanupUnit ensureStopped removeDest
    rw [hstat]
    simp only [Bool.false_eq_true, if_false]
    by_cases hact : s.active u
    · rw [hact, himp (by rw [hact])]
      simp only [Bool.false_eq_true, if_false, if_pos rfl]
      cases hdest : s.dest u with
      | none => simp [hrec]
      | some d =>
        have hrm : e.removeErr u = true := by
          rcases hcase with hc | hc
          · rw [hdest] at hc; exact absurd hc (by simp)
          · exact hc
        rw [hrm]
        simp [hrec]
    · rw [if_neg hact]
      simp only [Bool.false_eq_true, if_false]
      cases hdest : s.dest u with
      | none => simp [hrec]
      | some d =>
        have hrm : e.removeErr u = true := by
          rcases hcase with hc | hc
          · rw [hdest] at hc; exact absurd hc (by simp)
          · exact hc
        rw [hrm]
        simp [hrec]
  · intro d himp hdest hrm
    unfold cleanupUnit ensureStopped removeDest
    rw [hstat]
    simp only [Bool.false_eq_true, if_false]
    by_cases hact : s.active u
    · rw [hact, himp (by rw [hact]), if_pos rfl]
      simp only [Bool.false_eq_true, if_false]
      rw [hdest, hrm]
      simp [lookupFp_delFp, updO_apply]
    · rw [if_neg hact]
      simp only [Bool.false_eq_true, if_false]
      rw [hdest, hrm]
      simp [lookupFp_delFp, updO_apply, hact]

/-- C4, witness: the success case on a concrete active unit whose source
file is gone: the stop is issued, the destination record removed and the
state entry deleted. -/
theorem C4_witness :
    lookupFp [("a.service", "x")] "a.service" = some "x" ∧
    envGone.src "a.service" = none ∧
    (lookupFp (cleanupUnit envGone ⟨true, [("a.service", "x")], dOne, aT, []⟩
        "a.service").state "a.service" = none ∧
      (cleanupUnit envGone ⟨true, [("a.service", "x")], dOne, aT, []⟩
        "a.service").dest "a.service" = none ∧
      (cleanupUnit envGone ⟨true, [("a.service", "x")], dOne, aT, []⟩ "a.service").acts =
        [] ++ (if (⟨true, [("a.service", "x")], dOne, aT, []⟩ : SyncState).active "a.service"
          then [Action.stop "a.service"] else []) ∧
      (cleanupUnit envGone ⟨true, [("a.service", "x")], dOne, aT, []⟩ "a.service").ok =
        (⟨true, [("a.service", "x")], dOne, aT, []⟩ : SyncState).ok) :=
  ⟨by decide, by decide,
   (C4_cleanup_deleted_unit envGone ⟨true, [("a.service", "x")], dOne, aT, []⟩
       "a.service" "x" (by decide) (by decide)).2.2
     [1] (fun _ => by decide) (by decide) (by decide)⟩

/-- C9: in the trailing cleanup scan, any stat error counts as "file is
absent", even when the source file is still present: the unit is stopped,
its Destination Record removed and its state entry deleted, exactly as if
the source file had been deleted. -/
theorem C9_stat_error_treated_as_absent (e : Env) (s : SyncState) (u : String)
    (c d : Content) (fp : Fp)
    (hsrc : e.src u = some c) (hstat : e.statErr u = true)
    (hrec : lookupFp s.state u = some fp)
    (hact : s.active u = true) (hstop : e.stopErr u = false)
    (hdest : s.dest u = some d) (hrm : e.removeErr u = false) :
    (cleanupUnit e s u).acts = s.acts ++ [Action.stop u] ∧
      lookupFp (cleanupUnit e s u).state u = none ∧
      (cleanupUnit e s u).dest u = none ∧
      (cleanupUnit e s u).ok = s.ok := by
  have hcond : ((e.src u).isSome && !e.statErr u) = false := by
    rw [hstat]
    simp
  unfold cleanupUnit ensureStopped removeDest
  rw [hcond]
  simp only [Bool.false_eq_true, if_false]
  rw [hact, hstop, if_pos rfl]
  simp only [Bool.false_eq_true, if_false]
  rw [hdest, hrm]
  simp [lookupFp_delFp, updO_apply]

/-- C9, witness: a present source file whose stat fails is cleaned up
anyway. -/
theorem C9_witness :
    envStatErr.src "a.service" = some [1] ∧
    envStatErr.statErr "a.service" = true ∧
    ((cleanupUnit envStatErr ⟨true, [("a.service", "x")], dOne, aT, []⟩ "a.service").acts =
        [] ++ [Action.stop "a.service"] ∧
      lookupFp (cleanupUnit envStatErr ⟨true, [("a.service", "x")], dOne, aT, []⟩
        "a.service").state "a.service" = none ∧
      (cleanupUnit envStatErr ⟨true, [("a.service", "x")], dOne, aT, []⟩
        "a.service").dest "a.service" = none ∧
      (cleanupUnit envStatErr ⟨true, [("a.service", "x")], dOne, aT, []⟩ "a.service").ok =
        (⟨true, [("a.service", "x")], dOne, aT, []⟩ : SyncState).ok) :=
  ⟨by decide, by decide,
   C9_stat_error_treated_as_absent envStatErr
     ⟨true, [("a.service", "x")], dOne, aT, []⟩ "a.service" [1] [1] "x"
     (by decide) (by decide) (by decide) (by decide) (by decide) (by decide) (by decide)⟩

/-- C5: when the destination file existed with a fingerprint different
from the source fingerprint, the pass restarts the unit if and only if the
source fingerprint differs from the one recorded in Reconciliation State
(an absent record reads as the zero value "", which never equals a real
fingerprint); on success the state entry is set to the new fingerprint, on
a control-interface error the pass is marked failed and the state map is
left unchanged. -/
theorem C5_restart_on_changed_fingerprint
    (sha : Content → List Nat) (e : Env) (s : SyncState) (u : String) (c d : Content)
    (hsha : ShaGood sha)
    (hskip : skipName u = false) (hsrc : e.src u = some c) (hsrcE : e.srcErr u = false)
    (hdest : s.dest u = some d) (hdE : e.destErr u = false)
    (hne : chk sha d ≠ chk sha c) (hcp : e.copyErr u = false) :
    (chk sha c = stateGet s.state u →
      (processUnit sha e s u).acts = s.acts ∧
      (processUnit sha e s u).state = s.state ∧
      (processUnit sha e s u).ok = s.ok) ∧
    (chk sha c ≠ stateGet s.state u → e.reloadErr = false → e.restartErr u = false →
      (processUnit sha e s u).acts = s.acts ++ [Action.reload, Action.restart u] ∧
      lookupFp (processUnit sha e s u).state u = some (chk sha c) ∧
      (processUnit sha e s u).ok = s.ok) ∧
    (chk sha c ≠ stateGet s.state u → (e.reloadErr = true ∨ e.restartErr u = true) →
      (processUnit sha e s u).ok = false ∧
      (processUnit sha e s u).state = s.state) := by
  unfold processUnit
  rw [hskip, hsrc, hsrcE]
  simp only [Bool.false_eq_true, if_false]
  have hrd : readDestChecksum sha e s.dest u = some (chk sha d) := by
    simp [readDestChecksum, hdest, hdE]
  simp only [hrd]
  unfold copyPhase
  rw [if_neg (fun h => hne h.symm), hcp]
  simp only [Bool.false_eq_true, if_false]
  unfold runBranch restartCmd
  rw [if_neg (by push_neg; exact ⟨fun h => hne h.symm, chk_ne_empty sha hsha d⟩)]
  refine ⟨?_, ?_, ?_⟩
  · intro heq
    rw [if_neg (by simp [heq])]
    exact ⟨rfl, rfl, rfl⟩
  · intro hne2 hrel hrst
    rw [if_pos (by simpa using hne2), hrel]
    simp only [Bool.false_eq_true, if_false]
    rw [hrst]
    simp [lookupFp_setFp]
  · intro hne2 hor
    rw [if_pos (by simpa using hne2)]
    rcases hor with h | h
    · rw [h]
      simp
    · by_cases hrel : e.reloadErr
      · rw [hrel]
        simp
      · have hrel2 : e.reloadErr = false := by simpa using hrel
        rw [hrel2]
        simp only [Bool.false_eq_true, if_false]
        rw [h]
        simp

/-- C5, witness: changed source content with a stale state record issues
exactly one restart (after the daemon-reload) and updates the state. -/
theorem C5_witness :
    chk shaC [2] ≠ chk shaC [1] ∧
    chk shaC [1] ≠ stateGet [("a", "x")] "a" ∧
    ((processUnit shaC envChange ⟨true, [("a", "x")], dStale, aT, []⟩ "a").acts =
        [] ++ [Action.reload, Action.restart "a"] ∧
      lookupFp (processUnit shaC envChange
        ⟨true, [("a", "x")], dStale, aT, []⟩ "a").state "a" = some (chk shaC [1]) ∧
      (processUnit shaC envChange ⟨true, [("a", "x")], dStale, aT, []⟩ "a").ok = true) :=
  ⟨by decide, by decide,
   (C5_restart_on_changed_fingerprint shaC envChange
       ⟨true, [("a", "x")], dStale, aT, []⟩ "a" [1] [2] shaGood_shaC
       (by decide) (by decide) (by decide) (by decide) (by decide) (by decide)
       (by decide)).2.1 (by decide) (by decide) (by decide)⟩

/-- C6: when the destination fingerprint (read before any copy) equals
the source fingerprint, or the destination record was absent, the pass
ensures the unit is running — starting it only when it is not active —
and records the source fingerprint in Reconciliation State whether or not
a start was needed; a control-interface error marks the pass failed and
leaves the state map unchanged. -/
theorem C6_ensure_running_and_record
    (sha : Content → List Nat) (e : Env) (s : SyncState) (u : String) (c : Content)
    (hsha : ShaGood sha)
    (hskip : skipName u = false) (hsrc : e.src u = some c) (hsrcE : e.srcErr u = false)
    (hcp : e.copyErr u = false)
    (hcase : (∃ d, s.dest u = some d ∧ e.destErr u = false ∧ chk sha d = chk sha c) ∨
      s.dest u = none) :
    (s.active u = true →
      (processUnit sha e s u).acts = s.acts ∧
      lookupFp (processUnit sha e s u).state u = some (chk sha c) ∧
      (processUnit sha e s u).ok = s.ok) ∧
    (s.active u = false → e.startErr u = false →
      (processUnit sha e s u).acts = s.acts ++ [Action.start u] ∧
      lookupFp (processUnit sha e s u).state u = some (chk sha c) ∧
      (processUnit sha e s u).active u = true ∧
      (processUnit sha e s u).ok = s.ok) ∧
    (s.active u = false → e.startErr u = true →
      (processUnit sha e s u).ok = false ∧
      (processUnit sha e s u).state = s.state) := by
  unfold processUnit
  rw [hskip, hsrc, hsrcE]
  simp only [Bool.false_eq_true, if_false]
  rcases hcase with ⟨d, hdest, hdE, hde⟩ | hdest
  · have hrd : readDestChecksum sha e s.dest u = some (chk sha d) := by
      simp [readDestChecksum, hdest, hdE]
    simp only [hrd]
    unfold copyPhase
    rw [if_pos hde.symm]
    unfold runBranch ensureRunning
    rw [if_pos (Or.inl hde.symm)]
    refine ⟨?_, ?_, ?_⟩
    · intro hact
      rw [hact]
      simp [lookupFp_setFp]
    · intro hact hstart
      rw [hact]
      simp only [Bool.false_eq_true, if_false]
      rw [hstart]
      simp [lookupFp_setFp, updB_apply]
    · intro hact hstart
      rw [hact]
      simp only [Bool.false_eq_true, if_false]
      rw [hstart]
      simp
  · have hrd : readDestChecksum sha e s.dest u = some "" := by
      simp [readDestChecksum, hdest]
    simp only [hrd]
    unfold copyPhase
    rw [if_neg (chk_ne_empty sha hsha c), hcp]
    simp only [Bool.false_eq_true, if_false]
    unfold runBranch ensureRunning
    rw [if_pos (Or.inr rfl)]
    refine ⟨?_, ?_, ?_⟩
    · intro hact
      rw [hact]
      simp [lookupFp_setFp]
    · intro hact hstart
      rw [hact]
      simp only [Bool.false_eq_true, if_false]
      rw [hstart]
      simp [lookupFp_setFp, updB_apply]
    · intro hact hstart
      rw [hact]
      simp only [Bool.false_eq_true, if_false]
      rw [hstart]
      simp

/-- C6, witness: first sight of a unit (no destination record, inactive)
starts it and records its fingerprint. -/
theorem C6_witness :
    az "a.service" = false ∧
    envOne.startErr "a.service" = false ∧
    ((processUnit shaC envOne ⟨true, [], dz, az, []⟩ "a.service").acts =
        [] ++ [Action.start "a.service"] ∧
      lookupFp (processUnit shaC envOne ⟨true, [], dz, az, []⟩ "a.service").state
        "a.service" = some (chk shaC [1]) ∧
      (processUnit shaC envOne ⟨true, [], dz, az, []⟩ "a.service").active "a.service" = true ∧
      (processUnit shaC envOne ⟨true, [], dz, az, []⟩ "a.service").ok = true) :=
  ⟨by decide, by decide,
   (C6_ensure_running_and_record shaC envOne ⟨true, [], dz, az, []⟩ "a.service" [1]
       shaGood_shaC (by decide) (by decide) (by decide) (by decide)
       (Or.inr (by decide))).2.1 (by decide) (by decide)⟩

/-- C7: a listing failure aborts the whole pass with no partial
processing: the pass returns false, the Reconciliation State, the
destination directory and the live units are exactly as before, and no
control-interface action is attempted. -/
theorem C7_listing_failure_aborts (sha : Content → List Nat) (e : Env)
    (state0 : List (String × Fp)) (dest0 : String → Option Content)
    (active0 : String → Bool) (h : e.srcList = none) :
    sync sha e state0 dest0 active0 = ⟨false, state0, dest0, active0, []⟩ :=
  sync_none sha e state0 dest0 active0 h

/-- C7, witness. -/
theorem C7_witness :
    envNoList.srcList = none ∧
    sync shaC envNoList [("a", "x")] dOne aT = ⟨false, [("a", "x")], dOne, aT, []⟩ :=
  ⟨rfl, C7_listing_failure_aborts shaC envNoList [("a", "x")] dOne aT rfl⟩

/-- C8: in the event loop, a timer fire and each create/write/remove/
rename notification invoke the reconciler exactly once and re-arm the
single timer with the resync interval when the reconciler reports
converged and the retry interval otherwise; a chmod (metadata-only)
notification performs no invocation and leaves the pending timer
unchanged. -/
theorem C8_loop_dispatch (resyncI retryI : Nat) {σ : Type}
    (reconcile : σ → σ × Bool) (s : Loop σ) :
    loopStep resyncI retryI reconcile s .timerFire =
      .next ⟨if (reconcile s.rstate).2 then resyncI else retryI,
        (reconcile s.rstate).1, s.invocationCount + 1⟩ ∧
    loopStep resyncI retryI reconcile s (.notify .create) =
      .next ⟨if (reconcile s.rstate).2 then resyncI else retryI,
        (reconcile s.rstate).1, s.invocationCount + 1⟩ ∧
    loopStep resyncI retryI reconcile s (.notify .write) =
      .next ⟨if (reconcile s.rstate).2 then resyncI else retryI,
        (reconcile s.rstate).1, s.invocationCount + 1⟩ ∧
    loopStep resyncI retryI reconcile s (.notify .remove) =
      .next ⟨if (reconcile s.rstate).2 then resyncI else retryI,
        (reconcile s.rstate).1, s.invocationCount + 1⟩ ∧
    loopStep resyncI retryI reconcile s (.notify .rename) =
      .next ⟨if (reconcile s.rstate).2 then resyncI else retryI,
        (reconcile s.rstate).1, s.invocationCount + 1⟩ ∧
    loopStep resyncI retryI reconcile s (.notify .chmod) = .next s :=
  ⟨rfl, rfl, rfl, rfl, rfl, rfl⟩

/-- C10: every computed fingerprint is a 64-character (hence non-empty)
hex string; the zero value "" read for the destination exactly
characterises an absent Destination Record; and a pass never maps any
unit to "" in Reconciliation State when the initial state does not. -/
theorem C10_fingerprints_nonempty_hex (sha : Content → List Nat) (hsha : ShaGood sha) :
    (∀ c : Content, (chk sha c).length = 64 ∧ chk sha c ≠ "" ∧
      ∀ ch ∈ (chk sha c).data, isHexChar ch = true) ∧
    (∀ (e : Env) (dest : String → Option Content) (u : String), e.destErr u = false →
      (readDestChecksum sha e dest u = some "" ↔ dest u = none)) ∧
    (∀ (e : Env) (st0 : List (String × Fp)) (d0 : String → Option Content)
        (a0 : String → Bool), (∀ p ∈ st0, p.2 ≠ "") →
      ∀ p ∈ (sync sha e st0 d0 a0).state, p.2 ≠ "") := by
  refine ⟨?_, ?_, ?_⟩
  · intro c
    exact ⟨chk_length sha hsha c, chk_ne_empty sha hsha c,
      fun ch hch => chk_chars_hex sha c ch hch⟩
  · intro e dest u hde
    constructor
    · intro h
      cases hd : dest u with
      | none => rfl
      | some d =>
        unfold readDestChecksum at h
        simp only [hd, hde, Bool.false_eq_true, if_false] at h
        exact absurd (by simpa using h) (chk_ne_empty sha hsha d)
    · intro h
      simp [readDestChecksum, h]
  · intro e st0 d0 a0 h0 p hp
    rcases sync_values sha e st0 d0 a0 p hp with h1 | ⟨cc, h2⟩
    · exact h0 p h1
    · rw [h2]
      exact chk_ne_empty sha hsha cc

/-- C10, witness. -/
theorem C10_witness :
    ShaGood shaC ∧
    ((∀ c : Content, (chk shaC c).length = 64 ∧ chk shaC c ≠ "" ∧
        ∀ ch ∈ (chk shaC c).data, isHexChar ch = true) ∧
     (∀ (e : Env) (dest : String → Option Content) (u : String), e.destErr u = false →
        (readDestChecksum shaC e dest u = some "" ↔ dest u = none)) ∧
     (∀ (e : Env) (st0 : List (String × Fp)) (d0 : String → Option Content)
         (a0 : String → Bool), (∀ p ∈ st0, p.2 ≠ "") →
        ∀ p ∈ (sync shaC e st0 d0 a0).state, p.2 ≠ "")) :=
  ⟨shaGood_shaC, C10_fingerprints_nonempty_hex shaC shaGood_shaC⟩

end Unitmgr
